import Mathlib

/-!
Verification of the lambtrip protocol adapter: a shallow embedding of the
request encoder, binary classifier, buffered response decoder, streaming
prelude parser and streaming body reader, together with proofs of the
specified properties.

Go effects are made explicit: the current time and the generated request id
are parameters of `buildRequest`; the asynchronous event stream is a list of
arrivals (an arrival is either a delivered event or the cancellation signal
winning the select); JSON (de)serialization of the prelude is a parameter of
the streaming round trip.
-/

namespace Lambtrip

/-! ## Go string primitives (ASCII model) -/

/-- Simple case folding used by Go strings.EqualFold, restricted to ASCII:
upper-case letters map to lower-case, every other code point is fixed. -/
def goFoldCode (n : Nat) : Nat :=
  if 65 ≤ n ∧ n ≤ 90 then n + 32 else n

/-- Go strings.EqualFold on rune sequences (ASCII case-insensitive equality). -/
def goEqualFold (s t : List Char) : Bool :=
  s.length == t.length &&
    (s.zip t).all (fun p => goFoldCode p.1.toNat == goFoldCode p.2.toNat)

/-- Go unicode.IsSpace restricted to the ASCII white space characters. -/
def goIsSpace (c : Char) : Bool :=
  c.toNat == 32 || c.toNat == 9 || c.toNat == 10 ||
    c.toNat == 11 || c.toNat == 12 || c.toNat == 13

/-- Go strings.TrimSpace: drop white space from both ends. -/
def goTrimSpace (s : List Char) : List Char :=
  ((s.dropWhile goIsSpace).reverse.dropWhile goIsSpace).reverse

/-- Go strings.Index for a one-character needle: index of the first
occurrence of `c`, or `none` (Go returns -1). -/
def goIndexChar (c : Char) : List Char → Option Nat
  | [] => none
  | d :: t => if d == c then some 0 else (goIndexChar c t).map (· + 1)

/-- Go strings.LastIndex for a one-character needle: index of the last
occurrence of `c`, or `none` (Go returns -1). -/
def goLastIndexChar (c : Char) (s : List Char) : Option Nat :=
  (goIndexChar c s.reverse).map (fun i => s.length - 1 - i)

/-- Go strings.Join with separator "," (used for multi-valued headers). -/
def goJoinComma : List String → String
  | [] => ""
  | [v] => v
  | v :: t => v ++ "," ++ goJoinComma t

/-! ## net/textproto canonical header keys and the http.Header model -/

/-- Go net/textproto validHeaderFieldByte: the token characters allowed in a
header field name (digits, letters, and the listed punctuation). -/
def validHeaderFieldByte (n : Nat) : Bool :=
  (48 ≤ n && n ≤ 57) || (65 ≤ n && n ≤ 90) || (97 ≤ n && n ≤ 122) ||
    (n ∈ [33, 35, 36, 37, 38, 39, 42, 43, 45, 46, 94, 95, 96, 124, 126])

/-- The per-character loop of Go net/textproto canonicalMIMEHeaderKey:
upper-case the first character and each character following a hyphen,
lower-case the rest. -/
def canonChars : Bool → List Char → List Char
  | _, [] => []
  | upper, c :: rest =>
    let n := c.toNat
    let n' := if upper && (97 ≤ n && n ≤ 122) then n - 32
              else if !upper && (65 ≤ n && n ≤ 90) then n + 32
              else n
    Char.ofNat n' :: canonChars (n' == 45) rest

/-- Go net/textproto CanonicalMIMEHeaderKey: if the key contains a character
that is not a valid header field byte it is returned unchanged, otherwise it
is canonicalized (for example content-type becomes Content-Type). -/
def canonicalMIMEHeaderKey (s : String) : String :=
  if s.toList.all (fun c => validHeaderFieldByte c.toNat) then
    String.mk (canonChars true s.toList)
  else s

/-- Model of Go http.Header: a finite map from canonical header keys to
value lists, represented as an association list. -/
abbrev Header := List (String × List String)

/-- http.Header.Values: the value list stored under the canonical form of
the key (Go returns the nil slice when the key is absent). -/
def Header.values (h : Header) (key : String) : List String :=
  match h.find? (fun e => e.1 == canonicalMIMEHeaderKey key) with
  | some e => e.2
  | none => []

/-- http.Header.Get: the first value stored under the canonical form of the
key, or the empty string. -/
def Header.get (h : Header) (key : String) : String :=
  match Header.values h key with
  | [] => ""
  | v :: _ => v

/-- http.Header.Set: replace the whole entry under the canonical key by the
single given value. -/
def Header.set (h : Header) (key value : String) : Header :=
  let ck := canonicalMIMEHeaderKey key
  h.filter (fun e => e.1 != ck) ++ [(ck, [value])]

/-- http.Header.Add: append the value to the entry under the canonical key,
creating the entry if needed. -/
def Header.add (h : Header) (key value : String) : Header :=
  let ck := canonicalMIMEHeaderKey key
  if h.any (fun e => e.1 == ck) then
    h.map (fun e => if e.1 == ck then (e.1, e.2 ++ [value]) else e)
  else h ++ [(ck, [value])]

/-! ## The binary classifier (isBinary) -/

/-- Embedding of lambtrip isBinary: any Content-Encoding value forces the
binary classification; otherwise the media type (parameters after the first
semicolon stripped, white space trimmed) is inspected: the main type text,
the listed application types, and any media type whose suffix starting at
the last plus sign is json, yaml or xml (all compared case-insensitively)
classify as text; everything else is binary. -/
def isBinary (headers : Header) : Bool :=
  let contentEncoding := headers.values "Content-Encoding"
  if contentEncoding.length > 0 then
    true
  else
    let contentType := (headers.get "Content-Type").toList
    let i := (goIndexChar ';' contentType).getD contentType.length
    let mediaType := goTrimSpace (contentType.take i)
    let j := (goIndexChar '/' mediaType).getD mediaType.length
    let mainType := mediaType.take j
    if goEqualFold mainType "text".toList then false
    else if goEqualFold mediaType "application/json".toList then false
    else if goEqualFold mediaType "application/yaml".toList then false
    else if goEqualFold mediaType "application/javascript".toList then false
    else if goEqualFold mediaType "application/xml".toList then false
    else
      let k := (goLastIndexChar '+' mediaType).getD 0
      let sfx := mediaType.drop k
      if goEqualFold sfx "+json".toList then false
      else if goEqualFold sfx "+yaml".toList then false
      else if goEqualFold sfx "+xml".toList then false
      else true

/-! ## Lemmas about the string primitives -/

theorem char_toNat_inj {a b : Char} (h : a.toNat = b.toNat) : a = b := by
  have := congrArg Char.ofNat h
  simpa using this

theorem goEqualFold_cons_cons (c : Char) (xs ys : List Char) :
    goEqualFold (c :: xs) (c :: ys) = goEqualFold xs ys := by
  simp [goEqualFold]

theorem goEqualFold_plus_false {s : List Char} (t : List Char) (h : '+' ∉ s) :
    goEqualFold s ('+' :: t) = false := by
  cases s with
  | nil => simp [goEqualFold]
  | cons d s' =>
    have hd : d ≠ '+' := fun hq => h (hq ▸ List.mem_cons_self d s')
    have h43 : ('+').toNat = 43 := rfl
    have hne : goFoldCode d.toNat ≠ goFoldCode 43 := by
      intro hEq
      unfold goFoldCode at hEq
      norm_num at hEq
      split at hEq
      · omega
      · exact hd (char_toNat_inj (by rw [hEq, h43]))
    simp [goEqualFold]
    intro _ hEq
    exact absurd hEq hne

theorem goIndexChar_none {c : Char} :
    ∀ {s : List Char}, goIndexChar c s = none → c ∉ s := by
  intro s
  induction s with
  | nil => simp
  | cons d t ih =>
    intro h
    simp only [goIndexChar] at h
    by_cases hdc : (d == c) = true
    · simp [hdc] at h
    · rw [if_neg hdc] at h
      have ht := ih (Option.map_eq_none'.mp h)
      have hdc' : d ≠ c := by simpa using hdc
      simp [List.mem_cons]
      exact ⟨fun hc => hdc' hc.symm, ht⟩

theorem goIndexChar_some_get {c : Char} :
    ∀ {s : List Char} {i : Nat}, goIndexChar c s = some i → s[i]? = some c := by
  intro s
  induction s with
  | nil => intro i h; simp [goIndexChar] at h
  | cons d t ih =>
    intro i h
    simp only [goIndexChar] at h
    by_cases hdc : (d == c) = true
    · rw [if_pos hdc] at h
      have : i = 0 := by simpa using h.symm
      subst this
      simp [show d = c from by simpa using hdc]
    · rw [if_neg hdc] at h
      rcases Option.map_eq_some'.mp h with ⟨j, hj, hi⟩
      subst hi
      simpa using ih hj

theorem goLastIndexChar_none {c : Char} {s : List Char}
    (h : goLastIndexChar c s = none) : c ∉ s := by
  unfold goLastIndexChar at h
  have := goIndexChar_none (Option.map_eq_none'.mp h)
  simpa using this

theorem goLastIndexChar_drop {c : Char} {s : List Char} {i : Nat}
    (h : goLastIndexChar c s = some i) : s.drop i = c :: s.drop (i + 1) := by
  unfold goLastIndexChar at h
  rcases Option.map_eq_some'.mp h with ⟨j, hj, hi⟩
  have hrev := goIndexChar_some_get hj
  rcases List.getElem?_eq_some.mp hrev with ⟨hjlt, _⟩
  have hjlt' : j < s.length := by simpa using hjlt
  have hs : s[s.length - 1 - j]? = some c := by
    rw [← List.getElem?_reverse hjlt']
    exact hrev
  subst hi
  rcases List.getElem?_eq_some.mp hs with ⟨hlt, hget⟩
  rw [List.drop_eq_getElem_cons hlt, hget]

/-! ## The claimed classification rule (spec side of the refinement) -/

/-- The classification rule as worded in the specification: binary whenever
any Content-Encoding value is present; otherwise text exactly when, after
stripping parameters following the semicolon and trimming white space, the
main type is text, or the media type equals (case-insensitively) one of
application/json, application/yaml, application/javascript, application/xml,
or the suffix after the last plus sign is json, yaml, or xml. -/
def classifiesTextSpec (headers : Header) : Bool :=
  (headers.values "Content-Encoding").isEmpty &&
    (let contentType := (headers.get "Content-Type").toList
     let mediaType :=
       goTrimSpace (contentType.take ((goIndexChar ';' contentType).getD contentType.length))
     let mainType := mediaType.take ((goIndexChar '/' mediaType).getD mediaType.length)
     goEqualFold mainType "text".toList ||
       goEqualFold mediaType "application/json".toList ||
       goEqualFold mediaType "application/yaml".toList ||
       goEqualFold mediaType "application/javascript".toList ||
       goEqualFold mediaType "application/xml".toList ||
       (match goLastIndexChar '+' mediaType with
        | some i =>
          goEqualFold (mediaType.drop (i + 1)) "json".toList ||
            goEqualFold (mediaType.drop (i + 1)) "yaml".toList ||
            goEqualFold (mediaType.drop (i + 1)) "xml".toList
        | none => false))

theorem sfx_bridge (mediaType : List Char) :
    (goEqualFold (mediaType.drop ((goLastIndexChar '+' mediaType).getD 0)) "+json".toList ||
       goEqualFold (mediaType.drop ((goLastIndexChar '+' mediaType).getD 0)) "+yaml".toList ||
       goEqualFold (mediaType.drop ((goLastIndexChar '+' mediaType).getD 0)) "+xml".toList) =
    (match goLastIndexChar '+' mediaType with
     | some i =>
       goEqualFold (mediaType.drop (i + 1)) "json".toList ||
         goEqualFold (mediaType.drop (i + 1)) "yaml".toList ||
         goEqualFold (mediaType.drop (i + 1)) "xml".toList
     | none => false) := by
  cases h : goLastIndexChar '+' mediaType with
  | none =>
    have hnm : '+' ∉ mediaType := goLastIndexChar_none h
    simp only [Option.getD_none, List.drop_zero]
    rw [show "+json".toList = '+' :: "json".toList from rfl,
      show "+yaml".toList = '+' :: "yaml".toList from rfl,
      show "+xml".toList = '+' :: "xml".toList from rfl,
      goEqualFold_plus_false _ hnm, goEqualFold_plus_false _ hnm,
      goEqualFold_plus_false _ hnm]
    rfl
  | some i =>
    have hdrop := goLastIndexChar_drop h
    simp only [Option.getD_some, hdrop]
    rw [show "+json".toList = '+' :: "json".toList from rfl,
      show "+yaml".toList = '+' :: "yaml".toList from rfl,
      show "+xml".toList = '+' :: "xml".toList from rfl,
      goEqualFold_cons_cons, goEqualFold_cons_cons, goEqualFold_cons_cons]

theorem classifier_chain (mt : List Char) :
    (if goEqualFold (mt.take ((goIndexChar '/' mt).getD mt.length)) "text".toList then false
     else if goEqualFold mt "application/json".toList then false
     else if goEqualFold mt "application/yaml".toList then false
     else if goEqualFold mt "application/javascript".toList then false
     else if goEqualFold mt "application/xml".toList then false
     else if goEqualFold (mt.drop ((goLastIndexChar '+' mt).getD 0)) "+json".toList then false
     else if goEqualFold (mt.drop ((goLastIndexChar '+' mt).getD 0)) "+yaml".toList then false
     else if goEqualFold (mt.drop ((goLastIndexChar '+' mt).getD 0)) "+xml".toList then false
     else true) =
    !(goEqualFold (mt.take ((goIndexChar '/' mt).getD mt.length)) "text".toList ||
        goEqualFold mt "application/json".toList ||
        goEqualFold mt "application/yaml".toList ||
        goEqualFold mt "application/javascript".toList ||
        goEqualFold mt "application/xml".toList ||
        (match goLastIndexChar '+' mt with
         | some i =>
           goEqualFold (mt.drop (i + 1)) "json".toList ||
             goEqualFold (mt.drop (i + 1)) "yaml".toList ||
             goEqualFold (mt.drop (i + 1)) "xml".toList
         | none => false)) := by
  rw [← sfx_bridge mt]
  generalize goEqualFold (mt.take ((goIndexChar '/' mt).getD mt.length)) "text".toList = a
  generalize goEqualFold mt "application/json".toList = b
  generalize goEqualFold mt "application/yaml".toList = c
  generalize goEqualFold mt "application/javascript".toList = d
  generalize goEqualFold mt "application/xml".toList = e
  generalize goEqualFold (mt.drop ((goLastIndexChar '+' mt).getD 0)) "+json".toList = f
  generalize goEqualFold (mt.drop ((goLastIndexChar '+' mt).getD 0)) "+yaml".toList = g
  generalize goEqualFold (mt.drop ((goLastIndexChar '+' mt).getD 0)) "+xml".toList = hx
  cases a <;> cases b <;> cases c <;> cases d <;> cases e <;> cases f <;> cases g <;>
    cases hx <;> rfl

/-- Claim C4: the binary classifier classifies binary whenever any
Content-Encoding value is present; otherwise, after stripping parameters
following the semicolon and trimming white space from the Content-Type, it
classifies text exactly when the main type is text, or the media type equals
case-insensitively application/json, application/yaml,
application/javascript, or application/xml, or the suffix after the last
plus sign is json, yaml, or xml; every other media type, including an empty
or unrecognized one, classifies binary. The classifier is a pure total
function by construction. -/
theorem claim_c4_binary_classifier (headers : Header) :
    isBinary headers = !(classifiesTextSpec headers) := by
  cases hce : headers.values "Content-Encoding" with
  | cons v vs => simp [isBinary, classifiesTextSpec, hce]
  | nil =>
    simp only [isBinary, classifiesTextSpec, hce, List.length_nil, List.isEmpty_nil,
      Bool.true_and, gt_iff_lt, Nat.lt_irrefl, if_false]
    exact classifier_chain _

/-! ## Base64 (Go encoding/base64 StdEncoding) -/

/-- The standard base64 alphabet as ASCII codes: A-Z, a-z, 0-9, plus, slash. -/
def base64Table : List Nat :=
  (List.range 26).map (· + 65) ++ (List.range 26).map (· + 97) ++
    (List.range 10).map (· + 48) ++ [43, 47]

/-- The ASCII code of the base64 digit for a six-bit value. -/
def b64char (v : Nat) : Nat := base64Table.getD v 0

/-- The six-bit value of a base64 digit given by its ASCII code, or `none`
when the code is not in the alphabet. -/
def b64val (c : Nat) : Option Nat := base64Table.findIdx? (· == c)

/-- Go base64.StdEncoding.Encode on a byte sequence: three bytes become four
digits; a two-byte tail becomes three digits and one padding character, a
one-byte tail two digits and two padding characters (61 is the ASCII code of
the padding character). -/
def base64Encode : List Nat → List Nat
  | a :: b :: c :: rest =>
    let v := a % 256 * 65536 + b % 256 * 256 + c % 256
    b64char (v / 262144 % 64) :: b64char (v / 4096 % 64) ::
      b64char (v / 64 % 64) :: b64char (v % 64) :: base64Encode rest
  | [a, b] =>
    let v := a % 256 * 65536 + b % 256 * 256
    [b64char (v / 262144 % 64), b64char (v / 4096 % 64), b64char (v / 64 % 64), 61]
  | [a] =>
    let v := a % 256 * 65536
    [b64char (v / 262144 % 64), b64char (v / 4096 % 64), 61, 61]
  | [] => []

/-- Go base64.StdEncoding.Decode on a sequence of ASCII codes: four digits
become three bytes; padding is allowed only in the final quantum, which
decodes to one byte (two digits, double padding) or two bytes (three digits,
single padding); any other shape is a decode error. -/
def base64Decode : List Nat → Option (List Nat)
  | [] => some []
  | c1 :: c2 :: c3 :: c4 :: rest =>
    match b64val c1, b64val c2 with
    | some v1, some v2 =>
      if c3 == 61 then
        if c4 == 61 && rest.isEmpty then some [v1 * 4 + v2 / 16] else none
      else
        match b64val c3 with
        | some v3 =>
          if c4 == 61 then
            if rest.isEmpty then some [v1 * 4 + v2 / 16, v2 % 16 * 16 + v3 / 4]
            else none
          else
            match b64val c4 with
            | some v4 =>
              (base64Decode rest).map
                (fun bs => (v1 * 4 + v2 / 16) :: (v2 % 16 * 16 + v3 / 4) ::
                  ((v3 % 4 * 64 + v4) :: bs))
            | none => none
        | none => none
    | _, _ => none
  | _ => none

theorem b64val_b64char : ∀ v < 64, b64val (b64char v) = some v := by decide

theorem b64char_ne_pad : ∀ v < 64, (b64char v == 61) = false := by decide

theorem base64_roundtrip :
    ∀ bs : List Nat, (∀ x ∈ bs, x < 256) → base64Decode (base64Encode bs) = some bs := by
  intro bs
  induction bs using base64Encode.induct with
  | case4 => intro _; rfl
  | case3 a =>
    intro h
    have ha : a < 256 := h a (by simp)
    have ha' : a % 256 = a := Nat.mod_eq_of_lt ha
    simp only [base64Encode, base64Decode]
    rw [b64val_b64char _ (Nat.mod_lt _ (by omega)), b64val_b64char _ (Nat.mod_lt _ (by omega))]
    simp only [beq_self_eq_true, List.isEmpty_nil, Bool.and_true, if_true]
    have e1 : a % 256 * 65536 / 262144 % 64 * 4 + a % 256 * 65536 / 4096 % 64 / 16 = a := by
      omega
    rw [e1]
  | case2 a b =>
    intro h
    have ha : a < 256 := h a (by simp)
    have hb : b < 256 := h b (by simp)
    have ha' : a % 256 = a := Nat.mod_eq_of_lt ha
    have hb' : b % 256 = b := Nat.mod_eq_of_lt hb
    simp only [base64Encode, base64Decode]
    rw [b64val_b64char _ (Nat.mod_lt _ (by omega)), b64val_b64char _ (Nat.mod_lt _ (by omega))]
    rw [b64char_ne_pad _ (Nat.mod_lt _ (by omega))]
    rw [b64val_b64char _ (Nat.mod_lt _ (by omega))]
    simp only [beq_self_eq_true, List.isEmpty_nil, if_true, Bool.false_eq_true, if_false]
    have e1 : (a % 256 * 65536 + b % 256 * 256) / 262144 % 64 * 4 +
        (a % 256 * 65536 + b % 256 * 256) / 4096 % 64 / 16 = a := by omega
    have e2 : (a % 256 * 65536 + b % 256 * 256) / 4096 % 64 % 16 * 16 +
        (a % 256 * 65536 + b % 256 * 256) / 64 % 64 / 4 = b := by omega
    rw [e1, e2]
  | case1 a b c rest ih =>
    intro h
    have ha : a < 256 := h a (by simp)
    have hb : b < 256 := h b (by simp)
    have hc : c < 256 := h c (by simp)
    have ha' : a % 256 = a := Nat.mod_eq_of_lt ha
    have hb' : b % 256 = b := Nat.mod_eq_of_lt hb
    have hc' : c % 256 = c := Nat.mod_eq_of_lt hc
    have hrest := ih (fun x hx => h x (by simp [hx]))
    simp only [base64Encode, base64Decode]
    rw [b64val_b64char _ (Nat.mod_lt _ (by omega)), b64val_b64char _ (Nat.mod_lt _ (by omega))]
    rw [b64char_ne_pad _ (Nat.mod_lt _ (by omega))]
    rw [b64val_b64char _ (Nat.mod_lt _ (by omega))]
    rw [b64char_ne_pad _ (Nat.mod_lt _ (by omega))]
    rw [b64val_b64char _ (Nat.mod_lt _ (by omega))]
    rw [hrest]
    simp only [Option.map_some]
    have e1 : (a % 256 * 65536 + b % 256 * 256 + c % 256) / 262144 % 64 * 4 +
        (a % 256 * 65536 + b % 256 * 256 + c % 256) / 4096 % 64 / 16 = a := by omega
    have e2 : (a % 256 * 65536 + b % 256 * 256 + c % 256) / 4096 % 64 % 16 * 16 +
        (a % 256 * 65536 + b % 256 * 256 + c % 256) / 64 % 64 / 4 = b := by omega
    have e3 : (a % 256 * 65536 + b % 256 * 256 + c % 256) / 64 % 64 % 4 * 64 +
        (a % 256 * 65536 + b % 256 * 256 + c % 256) % 64 = c := by omega
    rw [e1, e2, e3]
    simp

/-! ## The request encoder (buildRequest) -/

/-- The parts of a Go http.Request that buildRequest reads. `body` is `none`
for a nil body, otherwise the bytes delivered by reading the body to the
end; `urlUser` is the user-info username when the URL carries user info;
`cookies` are the parsed request cookies in their serialized form (the
net/http cookie parser is taken as given). -/
structure GoRequest where
  method : String
  header : Header
  body : Option (List Nat)
  urlHost : String
  urlUser : Option String
  rawPath : String
  rawQuery : String
  path : String
  userAgent : String
  cookies : List String

structure RequestContextHTTP where
  method : String
  path : String
  protocol : String
  userAgent : String
  deriving DecidableEq

structure RequestContext where
  http : RequestContextHTTP
  requestID : String
  time : String
  timeEpoch : Int
  deriving DecidableEq

/-- The outbound wire event. The body is the Go string as raw bytes: either
the body bytes verbatim or their base64 encoding. -/
structure WireRequest where
  version : String
  routeKey : String
  httpMethod : String
  body : List Nat
  isBase64Encoded : Bool
  rawPath : String
  rawQueryString : String
  headers : List (String × String)
  cookies : List String
  requestContext : RequestContext
  deriving DecidableEq

/-- Embedding of lambtrip buildRequest. The generated request id and the two
renderings of the current time are effects of the Go code and enter here as
parameters; reading the body always succeeds in the model (the bytes are
given). -/
def buildRequest (req : GoRequest) (requestID : String) (timeStr : String)
    (timeEpoch : Int) : WireRequest :=
  let isBase64Encoded := req.body.isSome && isBinary req.header
  let body0 := req.body.getD []
  let body := if isBase64Encoded then base64Encode body0 else body0
  { version := "2.0"
    routeKey := "$default"
    httpMethod := req.method
    body := body
    isBase64Encoded := isBase64Encoded
    rawPath := req.rawPath
    rawQueryString := req.rawQuery
    headers := req.header.filterMap
      (fun e => if goEqualFold e.1.toList "Cookie".toList then none
                else some (e.1, goJoinComma e.2))
    cookies := req.cookies
    requestContext :=
      { requestID := requestID
        http :=
          { method := req.method
            path := req.path
            protocol := "HTTP/1.0"
            userAgent := req.userAgent }
        time := timeStr
        timeEpoch := timeEpoch } }

/-! ## The invocation inputs (buffered and streaming transports) -/

/-- The fields of the Invoke input that the buffered transport fills in. -/
structure InvokeInput where
  functionName : String
  qualifier : Option String
  payload : List Nat
  deriving DecidableEq

/-- The fields of the InvokeWithResponseStream input. The SDK input type
carries an optional qualifier exactly like the synchronous one. -/
structure InvokeWithResponseStreamInput where
  functionName : String
  qualifier : Option String
  payload : List Nat
  deriving DecidableEq

/-- The invocation input built by BufferedTransport.RoundTrip: function name
from the URL host and, when the URL carries user info, the qualifier from
its username. The marshalled payload enters as a parameter. -/
def bufferedInvokeInput (req : GoRequest) (payload : List Nat) : InvokeInput :=
  { functionName := req.urlHost
    qualifier := req.urlUser
    payload := payload }

/-- The invocation input built by ResponseStreamTransport.RoundTrip: only
the function name and the payload are filled in; the qualifier field is
left at its zero value. -/
def streamingInvokeInput (req : GoRequest) (payload : List Nat) :
    InvokeWithResponseStreamInput :=
  { functionName := req.urlHost
    qualifier := none
    payload := payload }

/-! ## The buffered response decoder -/

/-- The inbound wire event, as deserialized by encoding/json into the
response structure. -/
structure WireResponse where
  statusCode : Int
  headers : List (String × String)
  body : List Nat
  isBase64Encoded : Bool
  cookies : List String
  deriving DecidableEq

/-- JSON-deserializing the empty object into the response structure leaves
every field at its Go zero value. -/
def emptyWireResponse : WireResponse :=
  { statusCode := 0, headers := [], body := [], isBase64Encoded := false, cookies := [] }

/-- Go net/http StatusText: the standard reason phrase for a status code,
or the empty string. -/
def statusText (code : Int) : String :=
  if code == 100 then "Continue"
  else if code == 101 then "Switching Protocols"
  else if code == 102 then "Processing"
  else if code == 103 then "Early Hints"
  else if code == 200 then "OK"
  else if code == 201 then "Created"
  else if code == 202 then "Accepted"
  else if code == 203 then "Non-Authoritative Information"
  else if code == 204 then "No Content"
  else if code == 205 then "Reset Content"
  else if code == 206 then "Partial Content"
  else if code == 207 then "Multi-Status"
  else if code == 208 then "Already Reported"
  else if code == 226 then "IM Used"
  else if code == 300 then "Multiple Choices"
  else if code == 301 then "Moved Permanently"
  else if code == 302 then "Found"
  else if code == 303 then "See Other"
  else if code == 304 then "Not Modified"
  else if code == 305 then "Use Proxy"
  else if code == 307 then "Temporary Redirect"
  else if code == 308 then "Permanent Redirect"
  else if code == 400 then "Bad Request"
  else if code == 401 then "Unauthorized"
  else if code == 402 then "Payment Required"
  else if code == 403 then "Forbidden"
  else if code == 404 then "Not Found"
  else if code == 405 then "Method Not Allowed"
  else if code == 406 then "Not Acceptable"
  else if code == 407 then "Proxy Authentication Required"
  else if code == 408 then "Request Timeout"
  else if code == 409 then "Conflict"
  else if code == 410 then "Gone"
  else if code == 411 then "Length Required"
  else if code == 412 then "Precondition Failed"
  else if code == 413 then "Request Entity Too Large"
  else if code == 414 then "Request URI Too Long"
  else if code == 415 then "Unsupported Media Type"
  else if code == 416 then "Requested Range Not Satisfiable"
  else if code == 417 then "Expectation Failed"
  else if code == 418 then "I'm a teapot"
  else if code == 421 then "Misdirected Request"
  else if code == 422 then "Unprocessable Entity"
  else if code == 423 then "Locked"
  else if code == 424 then "Failed Dependency"
  else if code == 425 then "Too Early"
  else if code == 426 then "Upgrade Required"
  else if code == 428 then "Precondition Required"
  else if code == 429 then "Too Many Requests"
  else if code == 431 then "Request Header Fields Too Large"
  else if code == 451 then "Unavailable For Legal Reasons"
  else if code == 500 then "Internal Server Error"
  else if code == 501 then "Not Implemented"
  else if code == 502 then "Bad Gateway"
  else if code == 503 then "Service Unavailable"
  else if code == 504 then "Gateway Timeout"
  else if code == 505 then "HTTP Version Not Supported"
  else if code == 506 then "Variant Also Negotiates"
  else if code == 507 then "Insufficient Storage"
  else if code == 508 then "Loop Detected"
  else if code == 510 then "Not Extended"
  else if code == 511 then "Network Authentication Required"
  else ""

/-- response.statusCode: a zero wire status decodes to 200. -/
def WireResponse.statusCodeOut (r : WireResponse) : Int :=
  if r.statusCode == 0 then 200 else r.statusCode

/-- response.status: the numeric code followed by the standard reason
phrase, or the bare numeric code when there is none. -/
def WireResponse.statusOut (r : WireResponse) : String :=
  let text := statusText r.statusCodeOut
  if text == "" then toString r.statusCodeOut
  else toString r.statusCodeOut ++ " " ++ text

/-- response.header: the declared headers (set one by one), then one
Set-Cookie per cookie, then Content-Type defaulted to application/json when
absent. -/
def WireResponse.headerOut (r : WireResponse) : Header :=
  let h := r.headers.foldl (fun acc e => Header.set acc e.1 e.2) ([] : Header)
  let h := r.cookies.foldl (fun acc c => Header.add acc "Set-Cookie" c) h
  if h.get "Content-Type" == "" then Header.set h "Content-Type" "application/json"
  else h

/-- response.body: base64-decode the body string when the flag is set
(failure is a decode error), otherwise use its raw bytes; also returns the
content length of the decoded bytes. -/
def WireResponse.bodyOut (r : WireResponse) : Option (List Nat × Nat) :=
  if r.isBase64Encoded then (base64Decode r.body).map (fun d => (d, d.length))
  else some (r.body, r.body.length)

/-- The parts of the decoded Go http.Response that buildResponse fills from
the wire response. The content length is the decoded byte count (Go stores
it as a non-negative int64). -/
structure HttpResponse where
  status : String
  statusCode : Int
  header : Header
  contentLength : Nat
  body : List Nat
  deriving DecidableEq

/-- Embedding of lambtrip buildResponse: `none` models the hard error on a
base64 decode failure. -/
def buildResponse (r : WireResponse) : Option HttpResponse :=
  r.bodyOut.map (fun bl =>
    { status := r.statusOut
      statusCode := r.statusCodeOut
      header := Header.set r.headerOut "Content-Length" (toString bl.2)
      contentLength := bl.2
      body := bl.1 })

/-! ## Claims C5, C6, C7 -/

/-- Claim C5: encoding a request body into the wire body string and flag and
then decoding that pair with the response body decoder yields exactly the
original bytes: a text-classified body is carried verbatim with the flag
clear and decoded identically, and a binary-classified body is
base64-encoded with the flag set so that base64 decoding returns
byte-identical content. -/
theorem claim_c5_body_roundtrip (req : GoRequest) (bs : List Nat) (rid ts : String)
    (te : Int) (hbody : req.body = some bs) (hb : ∀ x ∈ bs, x < 256) :
    ((isBinary req.header = false →
        (buildRequest req rid ts te).body = bs ∧
          (buildRequest req rid ts te).isBase64Encoded = false) ∧
      (isBinary req.header = true →
        (buildRequest req rid ts te).body = base64Encode bs ∧
          (buildRequest req rid ts te).isBase64Encoded = true)) ∧
    WireResponse.bodyOut
        { statusCode := 0, headers := [],
          body := (buildRequest req rid ts te).body,
          isBase64Encoded := (buildRequest req rid ts te).isBase64Encoded,
          cookies := [] } = some (bs, bs.length) := by
  cases hbin : isBinary req.header with
  | false => simp [buildRequest, hbody, hbin, WireResponse.bodyOut]
  | true => simp [buildRequest, hbody, hbin, WireResponse.bodyOut, base64_roundtrip bs hb]

def c5WitnessRequest : GoRequest :=
  { method := "POST", header := [("Content-Type", ["application/octet-stream"])],
    body := some [0, 255], urlHost := "f", urlUser := none, rawPath := "/",
    rawQuery := "", path := "/", userAgent := "", cookies := [] }

theorem claim_c5_body_roundtrip_witness :
    ((isBinary c5WitnessRequest.header = false →
        (buildRequest c5WitnessRequest "id" "t" 0).body = [0, 255] ∧
          (buildRequest c5WitnessRequest "id" "t" 0).isBase64Encoded = false) ∧
      (isBinary c5WitnessRequest.header = true →
        (buildRequest c5WitnessRequest "id" "t" 0).body = base64Encode [0, 255] ∧
          (buildRequest c5WitnessRequest "id" "t" 0).isBase64Encoded = true)) ∧
    WireResponse.bodyOut
        { statusCode := 0, headers := [],
          body := (buildRequest c5WitnessRequest "id" "t" 0).body,
          isBase64Encoded := (buildRequest c5WitnessRequest "id" "t" 0).isBase64Encoded,
          cookies := [] } = some ([0, 255], 2) :=
  claim_c5_body_roundtrip c5WitnessRequest [0, 255] "id" "t" 0 rfl (by decide)

/-- Claim C6 counterexample: for a request whose URL carries the user-info
qualifier alias, the streaming transport builds an invocation input whose
qualifier field is empty, so the qualifier is not passed, contradicting the
claim that both transports pass the user-info username as the qualifier. -/
def c6Request : GoRequest :=
  { method := "GET", header := [], body := none, urlHost := "function-name",
    urlUser := some "alias", rawPath := "/", rawQuery := "", path := "/",
    userAgent := "", cookies := [] }

theorem claim_c6_counterexample :
    c6Request.urlUser = some "alias" ∧
      (streamingInvokeInput c6Request []).qualifier = none ∧
      (streamingInvokeInput c6Request []).qualifier ≠ some "alias" := by
  refine ⟨rfl, rfl, ?_⟩
  simp [streamingInvokeInput]

/-- Claim C6 amended: the buffered transport passes the URL host as the
function name and the user-info username as the qualifier, while the
streaming transport passes only the URL host and leaves the qualifier
unset. -/
theorem claim_c6_amended (req : GoRequest) (payload : List Nat) :
    (bufferedInvokeInput req payload).functionName = req.urlHost ∧
      (bufferedInvokeInput req payload).qualifier = req.urlUser ∧
      (streamingInvokeInput req payload).functionName = req.urlHost ∧
      (streamingInvokeInput req payload).qualifier = none :=
  ⟨rfl, rfl, rfl, rfl⟩

/-- Claim C7 counterexample: a request with a nil body but headers that the
classifier marks binary (a Content-Encoding is present) is encoded with
isBase64Encoded false, so the flag is not equivalent to the classifier
verdict alone. -/
def c7Request : GoRequest :=
  { method := "POST", header := [("Content-Encoding", ["gzip"])], body := none,
    urlHost := "f", urlUser := none, rawPath := "/", rawQuery := "", path := "/",
    userAgent := "", cookies := [] }

theorem claim_c7_counterexample :
    isBinary c7Request.header = true ∧
      (buildRequest c7Request "id" "t" 0).isBase64Encoded = false := by
  constructor
  · decide
  · rfl

/-- Claim C7 amended: the wire request has isBase64Encoded true exactly when
the body is present and the headers are classified binary, and the wire body
string always decodes (base64 when the flag is set, identity otherwise) back
to exactly the body bytes that were read from the request (the empty byte
sequence for a nil body). -/
theorem claim_c7_amended (req : GoRequest) (rid ts : String) (te : Int)
    (hb : ∀ x ∈ req.body.getD [], x < 256) :
    (buildRequest req rid ts te).isBase64Encoded =
        (req.body.isSome && isBinary req.header) ∧
      WireResponse.bodyOut
          { statusCode := 0, headers := [],
            body := (buildRequest req rid ts te).body,
            isBase64Encoded := (buildRequest req rid ts te).isBase64Encoded,
            cookies := [] } =
        some (req.body.getD [], (req.body.getD []).length) := by
  constructor
  · rfl
  · cases hbody : req.body with
    | none => simp [buildRequest, hbody, WireResponse.bodyOut]
    | some bs =>
      rw [hbody] at hb
      cases hbin : isBinary req.header with
      | false => simp [buildRequest, hbody, hbin, WireResponse.bodyOut]
      | true =>
        simp [buildRequest, hbody, hbin, WireResponse.bodyOut,
          base64_roundtrip bs (by simpa using hb)]

theorem claim_c7_amended_witness :
    (buildRequest c7Request "id" "t" 0).isBase64Encoded =
        (c7Request.body.isSome && isBinary c7Request.header) ∧
      WireResponse.bodyOut
          { statusCode := 0, headers := [],
            body := (buildRequest c7Request "id" "t" 0).body,
            isBase64Encoded := (buildRequest c7Request "id" "t" 0).isBase64Encoded,
            cookies := [] } =
        some (c7Request.body.getD [], (c7Request.body.getD []).length) :=
  claim_c7_amended c7Request "id" "t" 0 (by decide)

/-! ## Header lemmas for the buffered decoder -/

theorem find?_filter_comm {α} (p q : α → Bool) (l : List α)
    (himp : ∀ x, p x = true → q x = true) :
    (l.filter q).find? p = l.find? p := by
  induction l with
  | nil => rfl
  | cons a t ih =>
    by_cases hq : q a = true
    · rw [List.filter_cons_of_pos hq]
      by_cases hp : p a = true
      · rw [List.find?_cons_of_pos _ hp, List.find?_cons_of_pos _ hp]
      · rw [List.find?_cons_of_neg _ (by simpa using hp),
          List.find?_cons_of_neg _ (by simpa using hp), ih]
    · rw [List.filter_cons_of_neg (by simpa using hq)]
      have hp : p a = false := by
        cases hpa : p a
        · rfl
        · exact absurd (himp a hpa) hq
      rw [List.find?_cons_of_neg _ (by simp [hp]), ih]

theorem Header.values_set (h : Header) (key value k : String) :
    Header.values (Header.set h key value) k =
      if canonicalMIMEHeaderKey k = canonicalMIMEHeaderKey key then [value]
      else Header.values h k := by
  unfold Header.set Header.values
  rw [List.find?_append]
  by_cases hk : canonicalMIMEHeaderKey k = canonicalMIMEHeaderKey key
  · rw [if_pos hk]
    have hnone :
        (h.filter (fun e => e.1 != canonicalMIMEHeaderKey key)).find?
          (fun e => e.1 == canonicalMIMEHeaderKey k) = none := by
      rw [List.find?_eq_none]
      intro x hx hpx
      have hmem := List.mem_filter.mp hx
      have hx1 : x.1 = canonicalMIMEHeaderKey k := by simpa using hpx
      have : (x.1 != canonicalMIMEHeaderKey key) = true := hmem.2
      rw [hx1, hk] at this
      simp at this
    rw [hnone]
    simp [hk]
  · rw [if_neg hk]
    have heq :
        (h.filter (fun e => e.1 != canonicalMIMEHeaderKey key)).find?
          (fun e => e.1 == canonicalMIMEHeaderKey k) =
        h.find? (fun e => e.1 == canonicalMIMEHeaderKey k) := by
      apply find?_filter_comm
      intro x hpx
      have hx1 : x.1 = canonicalMIMEHeaderKey k := by simpa using hpx
      simp [hx1, hk]
    rw [heq]
    cases hfind : h.find? (fun e => e.1 == canonicalMIMEHeaderKey k) with
    | some e => rfl
    | none => simp [hk, Ne.symm hk]

theorem Header.get_set (h : Header) (key value k : String) :
    Header.get (Header.set h key value) k =
      if canonicalMIMEHeaderKey k = canonicalMIMEHeaderKey key then value
      else Header.get h k := by
  unfold Header.get
  rw [Header.values_set]
  by_cases hk : canonicalMIMEHeaderKey k = canonicalMIMEHeaderKey key
  · rw [if_pos hk, if_pos hk]
  · rw [if_neg hk, if_neg hk]

theorem find?_map_keyfix (ck kk value : String) (l : Header) :
    (l.map (fun e => if e.1 == ck then (e.1, e.2 ++ [value]) else e)).find?
        (fun e => e.1 == kk) =
      (l.find? (fun e => e.1 == kk)).map
        (fun e => if e.1 == ck then (e.1, e.2 ++ [value]) else e) := by
  induction l with
  | nil => rfl
  | cons a t ih =>
    simp only [List.map_cons, List.find?_cons]
    have hfst : ∀ e : String × List String,
        (if e.1 == ck then (e.1, e.2 ++ [value]) else e).1 = e.1 := by
      intro e
      split <;> rfl
    rw [hfst a]
    cases hak : a.1 == kk
    · exact ih
    · rfl

theorem find?_singleton_key_ne (ck kk : String) (vs : List String) (hne : ck ≠ kk) :
    List.find? (fun e => e.1 == kk) [(ck, vs)] = none := by
  simp [List.find?_cons, hne]

theorem Header.values_add_ne (h : Header) (key value k : String)
    (hne : canonicalMIMEHeaderKey k ≠ canonicalMIMEHeaderKey key) :
    Header.values (Header.add h key value) k = Header.values h k := by
  unfold Header.add Header.values
  by_cases hany : h.any (fun e => e.1 == canonicalMIMEHeaderKey key) = true
  · rw [if_pos hany, find?_map_keyfix]
    cases hfind : h.find? (fun e => e.1 == canonicalMIMEHeaderKey k) with
    | none => rfl
    | some e =>
      have he1 : e.1 = canonicalMIMEHeaderKey k := by
        simpa using List.find?_some hfind
      simp [he1, hne]
  · rw [if_neg hany, List.find?_append]
    cases hfind : h.find? (fun e => e.1 == canonicalMIMEHeaderKey k) with
    | some e => rfl
    | none =>
      rw [Option.none_or, find?_singleton_key_ne _ _ _ (Ne.symm hne)]

theorem Header.get_add_ne (h : Header) (key value k : String)
    (hne : canonicalMIMEHeaderKey k ≠ canonicalMIMEHeaderKey key) :
    Header.get (Header.add h key value) k = Header.get h k := by
  unfold Header.get
  rw [Header.values_add_ne h key value k hne]

/-- The last value among the wire headers whose canonical key matches the
canonical form of `k`, if any. The Go header map is written by h.Set for
each declared header, so the last write wins. -/
def lastValue (pairs : List (String × String)) (k : String) : Option String :=
  (pairs.reverse.find? (fun e =>
    canonicalMIMEHeaderKey e.1 == canonicalMIMEHeaderKey k)).map Prod.snd

theorem get_foldl_set (pairs : List (String × String)) (h0 : Header) (k : String) :
    Header.get (pairs.foldl (fun acc e => Header.set acc e.1 e.2) h0) k =
      match lastValue pairs k with
      | some v => v
      | none => Header.get h0 k := by
  induction pairs generalizing h0 with
  | nil => rfl
  | cons a t ih =>
    rw [List.foldl_cons, ih]
    unfold lastValue
    rw [List.reverse_cons, List.find?_append]
    cases hfind : t.reverse.find? (fun e =>
        canonicalMIMEHeaderKey e.1 == canonicalMIMEHeaderKey k) with
    | some e => rfl
    | none =>
      simp only [Option.none_or, List.find?_cons, List.find?_nil]
      rw [Header.get_set]
      cases hak : canonicalMIMEHeaderKey a.1 == canonicalMIMEHeaderKey k
      · rw [if_neg (fun hkk => by simp [hkk] at hak)]
      · have hk : canonicalMIMEHeaderKey a.1 = canonicalMIMEHeaderKey k := by simpa using hak
        rw [if_pos hk.symm]
        rfl

theorem get_foldl_add_setCookie (cookies : List String) (h0 : Header) :
    Header.get (cookies.foldl (fun acc c => Header.add acc "Set-Cookie" c) h0)
        "Content-Type" = Header.get h0 "Content-Type" := by
  induction cookies generalizing h0 with
  | nil => rfl
  | cons c t ih =>
    rw [List.foldl_cons, ih, Header.get_add_ne]
    decide

/-- The Content-Type value of the decoded header set: the last declared
Content-Type value when that is non-empty, and the synthesized
application/json otherwise (also when the declared value is empty). -/
theorem headerOut_get_contentType (r : WireResponse) :
    (r.headerOut).get "Content-Type" =
      (if (lastValue r.headers "Content-Type").getD "" = "" then "application/json"
       else (lastValue r.headers "Content-Type").getD "") := by
  unfold WireResponse.headerOut
  have hbase :
      Header.get
        (r.cookies.foldl (fun acc c => Header.add acc "Set-Cookie" c)
          (r.headers.foldl (fun acc e => Header.set acc e.1 e.2) ([] : Header)))
        "Content-Type" = (lastValue r.headers "Content-Type").getD "" := by
    rw [get_foldl_add_setCookie, get_foldl_set]
    cases lastValue r.headers "Content-Type" with
    | some v => rfl
    | none => rfl
  by_cases hct : (lastValue r.headers "Content-Type").getD "" = ""
  · rw [if_pos hct]
    rw [if_pos (by rw [hbase, hct]; rfl)]
    rw [Header.get_set]
    rw [if_pos rfl]
  · rw [if_neg hct]
    rw [if_neg (by rw [hbase]; simpa using hct)]
    exact hbase.trans rfl

/-! ## Claim C9 -/

def c9CtrexResponse : WireResponse :=
  { statusCode := 0, headers := [("Content-Type", "")], body := [],
    isBase64Encoded := false, cookies := [] }

/-- Claim C9 counterexample: a wire response that does carry a Content-Type
header, with an empty value, still gets the synthesized application/json
(the decoder tests the looked-up value against the empty string, not the
presence of the header), so Content-Type is not synthesized exactly when no
Content-Type header is present. -/
theorem claim_c9_counterexample :
    (c9CtrexResponse.headers.any (fun e => e.1 == "Content-Type")) = true ∧
      c9CtrexResponse.headerOut.get "Content-Type" = "application/json" ∧
      lastValue c9CtrexResponse.headers "Content-Type" = some "" := by
  refine ⟨rfl, ?_, rfl⟩
  rfl

/-- Claim C9 amended: buffered decoding of the empty wire response yields
status code 200, status line 200 OK, an empty body, a synthesized
Content-Type application/json and Content-Length 0; a zero wire statusCode
decodes to 200; and Content-Type is synthesized as application/json exactly
when the wire response carries no Content-Type header with a non-empty
value (an empty declared value is likewise replaced, and otherwise the last
declared value is kept). -/
theorem claim_c9_amended :
    (buildResponse emptyWireResponse =
      some { status := "200 OK", statusCode := 200,
             header := [("Content-Type", ["application/json"]),
                        ("Content-Length", ["0"])],
             contentLength := 0, body := [] }) ∧
    (∀ r : WireResponse, r.statusCode = 0 → r.statusCodeOut = 200) ∧
    (∀ r : WireResponse,
      r.headerOut.get "Content-Type" =
        (if (lastValue r.headers "Content-Type").getD "" = "" then "application/json"
         else (lastValue r.headers "Content-Type").getD "")) := by
  refine ⟨rfl, ?_, fun r => headerOut_get_contentType r⟩
  intro r hr
  unfold WireResponse.statusCodeOut
  rw [hr]
  rfl

theorem claim_c9_amended_witness :
    emptyWireResponse.statusCodeOut = 200 ∧
      emptyWireResponse.headerOut.get "Content-Type" =
        (if (lastValue emptyWireResponse.headers "Content-Type").getD "" = ""
         then "application/json"
         else (lastValue emptyWireResponse.headers "Content-Type").getD "") :=
  ⟨claim_c9_amended.2.1 emptyWireResponse rfl, claim_c9_amended.2.2 emptyWireResponse⟩

/-! ## The streaming event stream -/

/-- One event of the InvokeWithResponseStream event stream: a payload chunk,
the terminal invoke-complete event (whose error code and details are
nil-able string pointers in the SDK, hence options here), the nil event a
closed events channel yields, or an event of an unrecognized type. -/
inductive StreamEvent where
  | payloadChunk (payload : List Nat)
  | invokeComplete (errorCode errorDetails : Option String)
  | nilEvent
  | other (typeName : String)
  deriving DecidableEq

/-- One observed arrival at the select that waits for the next event:
either the cancellation signal fired first, or an event was received. -/
inductive Arrival where
  | cancelled
  | ev (e : StreamEvent)
  deriving DecidableEq

/-- The 8-byte all-zero separator between the prelude and the body. -/
def separate : List Nat := [0, 0, 0, 0, 0, 0, 0, 0]

/-- Go bytes.Index: the index of the first occurrence of `pat` as a
contiguous run, or `none` (Go returns -1). -/
def bytesIndex (pat : List Nat) : List Nat → Option Nat
  | [] => if pat.isEmpty then some 0 else none
  | b :: t =>
    if pat.isPrefixOf (b :: t) then some 0
    else (bytesIndex pat t).map (· + 1)

inductive PreludeOutcome where
  | found (prelude leftover : List Nat) (rest : List Arrival)
  | truncated
  | cancelledOut
  | badEvent
  | pending
  deriving DecidableEq

/-- The outcome of the prelude loop together with whether the loop closed
the underlying stream. `found` carries the prelude bytes (still to be
JSON-decoded), the leftover bytes after the separator, and the arrivals not
yet consumed. -/
structure PreludeResult where
  outcome : PreludeOutcome
  streamClosed : Bool
  deriving DecidableEq

/-- Embedding of handleStreamingPrelude: accumulate payload chunks into the
buffer and scan it for the separator after each chunk; on the first match
split the buffer there. Cancellation closes the stream and surfaces the
context error; an invoke-complete before a separator closes the stream and
surfaces the unexpected end of file; a nil or unrecognized event surfaces
the unexpected-event error without closing the stream. `pending` means the
modeled arrival list ran out while the loop was still waiting. -/
def handleStreamingPrelude : List Arrival → List Nat → PreludeResult
  | [], _ => ⟨.pending, false⟩
  | .cancelled :: _, _ => ⟨.cancelledOut, true⟩
  | .ev (.invokeComplete _ _) :: _, _ => ⟨.truncated, true⟩
  | .ev (.payloadChunk p) :: rest, buf =>
    let buf' := buf ++ p
    match bytesIndex separate buf' with
    | some idx => ⟨.found (buf'.take idx) (buf'.drop (idx + 8)) rest, false⟩
    | none => handleStreamingPrelude rest buf'
  | .ev _ :: _, _ => ⟨.badEvent, false⟩

/-- The state of the streaming body reader: the leftover byte buffer, the
arrivals not yet consumed, the current value of the underlying stream's Err
method, and whether the body has been closed. -/
structure StreamingBody where
  buf : List Nat
  arrivals : List Arrival
  streamErr : Option String
  closed : Bool
  deriving DecidableEq

/-- The errors a read on the streaming body can produce. `streamFault` is a
non-nil value of the underlying stream's Err method, which the
payload-chunk branch passes through. -/
inductive ReadError where
  | ctxErr
  | responseStreamError (errorCode errorDetails : String)
  | eof
  | unexpectedEOF
  | unexpectedEventType
  | streamFault (msg : String)
  deriving DecidableEq

/-- Embedding of streamingBody.Read into a caller buffer of length `plen`:
the copied bytes, the returned error, and the new state. While leftover
bytes remain they are served without waiting for an event. Otherwise the
next arrival decides: the cancellation signal surfaces the context error
without touching the stream; an invoke-complete carrying an error code or
details surfaces them as a response stream error, and otherwise the end of
file; a payload chunk is copied as far as it fits, the remainder becoming
the new leftover, returning the stream's current Err value; the nil event
of a closed channel surfaces the unexpected end of file; any other event
surfaces the unexpected-event error. `none` models a read that blocks
because the modeled arrival list is exhausted. -/
def StreamingBody.read (b : StreamingBody) (plen : Nat) :
    Option (List Nat × Option ReadError × StreamingBody) :=
  if b.buf ≠ [] then
    let n := min plen b.buf.length
    some (b.buf.take n, none, { b with buf := b.buf.drop n })
  else
    match b.arrivals with
    | [] => none
    | .cancelled :: _ => some ([], some .ctxErr, b)
    | .ev (.invokeComplete ec ed) :: rest =>
      if ec.isSome || ed.isSome then
        some ([], some (.responseStreamError (ec.getD "") (ed.getD "")),
          { b with arrivals := rest })
      else some ([], some .eof, { b with arrivals := rest })
    | .ev (.payloadChunk p) :: rest =>
      let n := min plen p.length
      some (p.take n,
        match b.streamErr with
        | some m => some (.streamFault m)
        | none => none,
        { b with buf := p.drop n, arrivals := rest })
    | .ev .nilEvent :: rest => some ([], some .unexpectedEOF, { b with arrivals := rest })
    | .ev (.other _) :: rest =>
      some ([], some .unexpectedEventType, { b with arrivals := rest })

/-- streamingBody.Close closes the underlying stream. -/
def StreamingBody.close (b : StreamingBody) : StreamingBody :=
  { b with closed := true }

/-- The outcome of ResponseStreamTransport.RoundTrip once the invocation
itself has succeeded: a response whose status parts come from the decoded
prelude and whose body reader is seeded with the leftover bytes and owns
the remaining arrivals, or the error of the prelude phase. The JSON
deserializer for the prelude enters as a parameter (encoding/json is
external to the adapter). -/
inductive StreamRoundTripResult where
  | ok (status : String) (statusCode : Int) (header : Header) (body : StreamingBody)
  | errTruncated
  | errCancelled
  | errBadEvent
  | errJson
  | pending

/-- Embedding of the response-building tail of
ResponseStreamTransport.RoundTrip. -/
def responseStreamRoundTrip (jsonDecode : List Nat → Option WireResponse)
    (arrivals : List Arrival) (streamErr : Option String) : StreamRoundTripResult :=
  match handleStreamingPrelude arrivals [] with
  | ⟨.found prelude leftover rest, _⟩ =>
    match jsonDecode prelude with
    | some resp =>
      .ok resp.statusOut resp.statusCodeOut resp.headerOut
        ⟨leftover, rest, streamErr, false⟩
    | none => .errJson
  | ⟨.truncated, _⟩ => .errTruncated
  | ⟨.cancelledOut, _⟩ => .errCancelled
  | ⟨.badEvent, _⟩ => .errBadEvent
  | ⟨.pending, _⟩ => .pending

/-! ## Lemmas about bytesIndex -/

theorem bytesIndex_some (pat : List Nat) :
    ∀ {s : List Nat} {i : Nat}, bytesIndex pat s = some i →
      i + pat.length ≤ s.length ∧ s.take i ++ pat ++ s.drop (i + pat.length) = s := by
  intro s
  induction s with
  | nil =>
    intro i h
    unfold bytesIndex at h
    split at h
    · next hemp =>
      have hpat : pat = [] := by simpa using hemp
      injection h with h0
      subst h0
      simp [hpat]
    · exact absurd h (by simp)
  | cons x t ih =>
    intro i h
    unfold bytesIndex at h
    split at h
    · next hpre =>
      injection h with h0
      subst h0
      have hp : pat <+: x :: t := List.isPrefixOf_iff_prefix.mp hpre
      refine ⟨by simpa using hp.length_le, ?_⟩
      have htake := List.prefix_iff_eq_take.mp hp
      conv_rhs => rw [← List.take_append_drop pat.length (x :: t)]
      rw [← htake]
      simp
    · next hpre =>
      rcases Option.map_eq_some'.mp h with ⟨j, hj, hi⟩
      subst hi
      obtain ⟨hle, hsplit⟩ := ih hj
      refine ⟨by simp only [List.length_cons]; omega, ?_⟩
      have hd : (x :: t).drop (j + 1 + pat.length) = t.drop (j + pat.length) := by
        have harith : j + 1 + pat.length = (j + pat.length) + 1 := by omega
        rw [harith, List.drop_succ_cons]
      rw [List.take_succ_cons, hd, List.cons_append, List.cons_append]
      rw [List.append_assoc] at hsplit ⊢
      rw [hsplit]

theorem bytesIndex_none_append (pat a b : List Nat) (hpat : pat ≠ [])
    (h : bytesIndex pat (a ++ b) = none) : bytesIndex pat a = none := by
  induction a with
  | nil =>
    unfold bytesIndex
    rw [if_neg (by simpa using hpat)]
  | cons x t ih =>
    rw [List.cons_append] at h
    unfold bytesIndex at h ⊢
    split at h
    · exact absurd h (by simp)
    · next hpre =>
      have h1 : bytesIndex pat (t ++ b) = none := Option.map_eq_none'.mp h
      have hnp : ¬ pat.isPrefixOf (x :: t) = true := by
        intro hp
        apply hpre
        have hp' := List.isPrefixOf_iff_prefix.mp hp
        exact List.isPrefixOf_iff_prefix.mpr (hp'.trans (List.prefix_append (x :: t) b))
      rw [if_neg hnp, Option.map_eq_none']
      exact ih h1

/-! ## Claim C1: the streaming prelude parser -/

theorem prelude_found_sound :
    ∀ (arrivals : List Arrival) (buf : List Nat) (pre left : List Nat)
      (rest : List Arrival),
      (handleStreamingPrelude arrivals buf).outcome = .found pre left rest →
      ∃ consumed : List (List Nat),
        arrivals = consumed.map (fun c => Arrival.ev (.payloadChunk c)) ++ rest ∧
        buf ++ consumed.flatten = pre ++ separate ++ left ∧
        bytesIndex separate (pre ++ separate ++ left) = some pre.length := by
  intro arrivals
  induction arrivals with
  | nil =>
    intro buf pre left rest h
    simp [handleStreamingPrelude] at h
  | cons a rest0 ih =>
    intro buf pre left rest h
    match a with
    | .cancelled => simp [handleStreamingPrelude] at h
    | .ev (.invokeComplete ec ed) => simp [handleStreamingPrelude] at h
    | .ev .nilEvent => simp [handleStreamingPrelude] at h
    | .ev (.other tname) => simp [handleStreamingPrelude] at h
    | .ev (.payloadChunk p) =>
      cases hidx : bytesIndex separate (buf ++ p) with
      | some idx =>
        simp only [handleStreamingPrelude, hidx] at h
        obtain ⟨rfl, rfl, rfl⟩ := h
        obtain ⟨hle, hsplit⟩ := bytesIndex_some separate hidx
        have hsep8 : separate.length = 8 := rfl
        rw [hsep8] at hle hsplit
        refine ⟨[p], by simp, ?_, ?_⟩
        · rw [List.flatten_cons, List.flatten_nil, List.append_nil]
          exact hsplit.symm
        · rw [hsplit, hidx]
          have hlen : ((buf ++ p).take idx).length = idx := by
            rw [List.length_take]
            omega
          rw [hlen]
      | none =>
        simp only [handleStreamingPrelude, hidx] at h
        obtain ⟨consumed, hc1, hc2, hc3⟩ := ih (buf ++ p) pre left rest h
        refine ⟨p :: consumed, ?_, ?_, hc3⟩
        · simp [hc1]
        · rw [List.flatten_cons, ← List.append_assoc]
          exact hc2

theorem prelude_truncated (rest' : List Arrival) (ec ed : Option String) :
    ∀ (chunks : List (List Nat)) (buf : List Nat),
      bytesIndex separate (buf ++ chunks.flatten) = none →
      handleStreamingPrelude
        (chunks.map (fun c => Arrival.ev (.payloadChunk c)) ++
          Arrival.ev (.invokeComplete ec ed) :: rest') buf = ⟨.truncated, true⟩ := by
  intro chunks
  induction chunks with
  | nil => intro buf h; rfl
  | cons c cs ih =>
    intro buf h
    have hassoc : buf ++ (c :: cs).flatten = (buf ++ c) ++ cs.flatten := by
      rw [List.flatten_cons, List.append_assoc]
    rw [hassoc] at h
    have hone : bytesIndex separate (buf ++ c) = none :=
      bytesIndex_none_append separate (buf ++ c) cs.flatten (by decide) h
    simp only [List.map_cons, List.cons_append, handleStreamingPrelude, hone]
    exact ih (buf ++ c) h

/-- Claim C1: the streaming prelude parser accumulates payload-chunk bytes
into a growing buffer and splits it at the first occurrence of the 8-byte
all-zero separator, even when the separator spans chunk boundaries: the
bytes before the separator are the prelude handed to the JSON decoder, the
bytes after it the initial leftover of the body reader; and a terminal
invoke-complete arriving before any separator makes the streaming RoundTrip
itself fail with the unexpected-truncation error, returning no response. -/
theorem claim_c1_streaming_prelude :
    (∀ (arrivals rest : List Arrival) (pre left : List Nat),
      (handleStreamingPrelude arrivals []).outcome = .found pre left rest →
      ∃ consumed : List (List Nat),
        arrivals = consumed.map (fun c => Arrival.ev (.payloadChunk c)) ++ rest ∧
        consumed.flatten = pre ++ separate ++ left ∧
        bytesIndex separate (pre ++ separate ++ left) = some pre.length) ∧
    (∀ (jsonDecode : List Nat → Option WireResponse) (se : Option String)
        (arrivals rest : List Arrival) (pre left : List Nat) (resp : WireResponse),
      (handleStreamingPrelude arrivals []).outcome = .found pre left rest →
      jsonDecode pre = some resp →
      responseStreamRoundTrip jsonDecode arrivals se =
        .ok resp.statusOut resp.statusCodeOut resp.headerOut ⟨left, rest, se, false⟩) ∧
    (∀ (jsonDecode : List Nat → Option WireResponse) (se : Option String)
        (chunks : List (List Nat)) (ec ed : Option String) (rest' : List Arrival),
      bytesIndex separate chunks.flatten = none →
      handleStreamingPrelude
          (chunks.map (fun c => Arrival.ev (.payloadChunk c)) ++
            Arrival.ev (.invokeComplete ec ed) :: rest') [] = ⟨.truncated, true⟩ ∧
        responseStreamRoundTrip jsonDecode
            (chunks.map (fun c => Arrival.ev (.payloadChunk c)) ++
              Arrival.ev (.invokeComplete ec ed) :: rest') se = .errTruncated) := by
  refine ⟨?_, ?_, ?_⟩
  · intro arrivals rest pre left h
    have hsound := prelude_found_sound arrivals [] pre left rest h
    simpa using hsound
  · intro jd se arrivals rest pre left resp h hdec
    unfold responseStreamRoundTrip
    cases hres : handleStreamingPrelude arrivals [] with
    | mk outc sc =>
      rw [hres] at h
      simp only at h
      subst h
      simp only [hdec]
  · intro jd se chunks ec ed rest' hnone
    have htr := prelude_truncated rest' ec ed chunks [] (by simpa using hnone)
    refine ⟨htr, ?_⟩
    unfold responseStreamRoundTrip
    rw [htr]

def c1Arrivals : List Arrival :=
  [Arrival.ev (.payloadChunk [123, 125]), Arrival.ev (.payloadChunk separate),
   Arrival.ev (.invokeComplete none none)]

theorem claim_c1_streaming_prelude_witness :
    (∃ consumed : List (List Nat),
      c1Arrivals = consumed.map (fun c => Arrival.ev (.payloadChunk c)) ++
          [Arrival.ev (.invokeComplete none none)] ∧
        consumed.flatten = [123, 125] ++ separate ++ [] ∧
        bytesIndex separate ([123, 125] ++ separate ++ []) = some 2) ∧
    (responseStreamRoundTrip (fun _ => some emptyWireResponse) c1Arrivals none =
      .ok emptyWireResponse.statusOut emptyWireResponse.statusCodeOut
        emptyWireResponse.headerOut
        ⟨[], [Arrival.ev (.invokeComplete none none)], none, false⟩) ∧
    (handleStreamingPrelude [Arrival.ev (.invokeComplete none none)] [] =
        ⟨.truncated, true⟩ ∧
      responseStreamRoundTrip (fun _ => some emptyWireResponse)
          [Arrival.ev (.invokeComplete none none)] none = .errTruncated) :=
  ⟨claim_c1_streaming_prelude.1 c1Arrivals [Arrival.ev (.invokeComplete none none)]
      [123, 125] [] rfl,
   claim_c1_streaming_prelude.2.1 (fun _ => some emptyWireResponse) none c1Arrivals
      [Arrival.ev (.invokeComplete none none)] [123, 125] [] emptyWireResponse rfl rfl,
   claim_c1_streaming_prelude.2.2 (fun _ => some emptyWireResponse) none [] none none
      [] rfl⟩

/-! ## Reads on the streaming body: helper lemmas -/

theorem read_buffered (b : StreamingBody) (plen : Nat) (h : b.buf ≠ []) :
    b.read plen = some (b.buf.take (min plen b.buf.length), none,
      { b with buf := b.buf.drop (min plen b.buf.length) }) := by
  unfold StreamingBody.read
  rw [if_pos h]

theorem read_chunk (b : StreamingBody) (plen : Nat) (p : List Nat)
    (rest : List Arrival) (hb : b.buf = [])
    (ha : b.arrivals = Arrival.ev (.payloadChunk p) :: rest) :
    b.read plen = some (p.take (min plen p.length),
      (match b.streamErr with
       | some m => some (.streamFault m)
       | none => none),
      { b with buf := p.drop (min plen p.length), arrivals := rest }) := by
  unfold StreamingBody.read
  rw [if_neg (by simp [hb]), ha]

theorem read_complete (b : StreamingBody) (plen : Nat) (ec ed : Option String)
    (rest : List Arrival) (hb : b.buf = [])
    (ha : b.arrivals = Arrival.ev (.invokeComplete ec ed) :: rest) :
    b.read plen =
      (if ec.isSome || ed.isSome then
        some ([], some (.responseStreamError (ec.getD "") (ed.getD "")),
          { b with arrivals := rest })
      else some ([], some .eof, { b with arrivals := rest })) := by
  unfold StreamingBody.read
  rw [if_neg (by simp [hb]), ha]

theorem read_cancelled (b : StreamingBody) (plen : Nat) (rest : List Arrival)
    (hb : b.buf = []) (ha : b.arrivals = Arrival.cancelled :: rest) :
    b.read plen = some ([], some .ctxErr, b) := by
  unfold StreamingBody.read
  rw [if_neg (by simp [hb]), ha]

/-! ## Claim C3: cancellation semantics -/

def c3Body : StreamingBody := ⟨[], [Arrival.cancelled], none, false⟩

/-- Claim C3 counterexample: when the cancellation signal wins the wait
during a body read, the read surfaces the context error but returns with
the body state unchanged — in particular the underlying stream is not
closed (the closed flag stays false), contradicting the claim that the
stream resource is released on cancellation during a body read. -/
theorem claim_c3_counterexample :
    c3Body.read 5 = some ([], some .ctxErr, c3Body) ∧ c3Body.closed = false :=
  ⟨rfl, rfl⟩

/-- Claim C3 amended: when the cancellation signal fires while waiting for
the next event, the wait is abandoned and a cancellation error is surfaced
to the caller; during prelude parsing the underlying stream is also closed,
while during a body read the stream is left open, its release deferred to
the body's Close method. -/
theorem claim_c3_amended :
    (∀ (rest : List Arrival) (buf : List Nat),
      handleStreamingPrelude (Arrival.cancelled :: rest) buf =
        ⟨.cancelledOut, true⟩) ∧
    (∀ (jsonDecode : List Nat → Option WireResponse) (se : Option String)
        (rest : List Arrival),
      responseStreamRoundTrip jsonDecode (Arrival.cancelled :: rest) se =
        .errCancelled) ∧
    (∀ (b : StreamingBody) (plen : Nat) (rest : List Arrival),
      b.buf = [] → b.arrivals = Arrival.cancelled :: rest →
      b.read plen = some ([], some .ctxErr, b)) := by
  refine ⟨fun rest buf => rfl, fun jd se rest => rfl, ?_⟩
  intro b plen rest hb ha
  exact read_cancelled b plen rest hb ha

theorem claim_c3_amended_witness :
    c3Body.read 5 = some ([], some .ctxErr, c3Body) :=
  claim_c3_amended.2.2 c3Body 5 [] rfl rfl

/-! ## Claim C8: single-read behavior -/

/-- Claim C8: while leftover bytes remain a read serves as many of them as
fit and returns immediately with no error and no event consumed; otherwise
a payload-chunk event is copied as far as it fits, the remainder becomes
the new leftover, and the copied bytes are returned with no error (the
underlying stream reporting no fault). -/
theorem claim_c8_read_behavior :
    (∀ (b : StreamingBody) (plen : Nat), b.buf ≠ [] →
      b.read plen = some (b.buf.take (min plen b.buf.length), none,
        { b with buf := b.buf.drop (min plen b.buf.length) })) ∧
    (∀ (b : StreamingBody) (plen : Nat) (p : List Nat) (rest : List Arrival),
      b.buf = [] → b.streamErr = none →
      b.arrivals = Arrival.ev (.payloadChunk p) :: rest →
      b.read plen = some (p.take (min plen p.length), none,
        { b with buf := p.drop (min plen p.length), arrivals := rest })) := by
  refine ⟨read_buffered, ?_⟩
  intro b plen p rest hb hse ha
  rw [read_chunk b plen p rest hb ha, hse]

def c8Body : StreamingBody :=
  ⟨[1, 2, 3], [Arrival.ev (.payloadChunk [4, 5, 6])], none, false⟩

theorem claim_c8_read_behavior_witness :
    (c8Body.read 2 = some ([1, 2], none,
      { c8Body with buf := [3] })) ∧
    ((⟨[], [Arrival.ev (.payloadChunk [4, 5, 6])], none, false⟩ : StreamingBody).read 2 =
      some ([4, 5], none, ⟨[6], [], none, false⟩)) :=
  ⟨claim_c8_read_behavior.1 c8Body 2 (by decide),
   claim_c8_read_behavior.2 ⟨[], [Arrival.ev (.payloadChunk [4, 5, 6])], none, false⟩
     2 [4, 5, 6] [] rfl rfl rfl⟩

/-! ## Claim C10: empty chunks and end of stream -/

/-- Claim C10: with no leftover bytes, a payload chunk carrying an empty
payload is consumed and the read returns zero bytes with no error — not the
end of stream — leaving the reader waiting on the remaining arrivals; and
the end of stream is reported only when a clean invoke-complete event,
carrying neither an error code nor details, is consumed with an empty
leftover buffer. -/
theorem claim_c10_empty_chunk_read :
    (∀ (b : StreamingBody) (plen : Nat) (rest : List Arrival),
      b.buf = [] → b.streamErr = none →
      b.arrivals = Arrival.ev (.payloadChunk []) :: rest →
      b.read plen = some ([], none, { b with buf := [], arrivals := rest })) ∧
    (∀ (b b' : StreamingBody) (plen : Nat) (bytes : List Nat),
      b.read plen = some (bytes, some .eof, b') →
      b.buf = [] ∧
        ∃ rest, b.arrivals = Arrival.ev (.invokeComplete none none) :: rest ∧
          b' = { b with arrivals := rest }) := by
  constructor
  · intro b plen rest hb hse ha
    have h := read_chunk b plen [] rest hb ha
    rw [hse] at h
    simpa [hse] using h
  · intro b b' plen bytes h
    unfold StreamingBody.read at h
    by_cases hb : b.buf = []
    · refine ⟨hb, ?_⟩
      rw [if_neg (by simp [hb])] at h
      match ha : b.arrivals with
      | [] => rw [ha] at h; exact absurd h (by simp)
      | Arrival.cancelled :: rest => rw [ha] at h; exact absurd h (by simp)
      | Arrival.ev (.payloadChunk p) :: rest =>
        rw [ha] at h
        dsimp only at h
        cases hse : b.streamErr with
        | some m => rw [hse] at h; exact absurd h (by simp)
        | none => rw [hse] at h; exact absurd h (by simp)
      | Arrival.ev (.invokeComplete ec ed) :: rest =>
        rw [ha] at h
        dsimp only at h
        by_cases hee : ec.isSome || ed.isSome
        · rw [if_pos hee] at h
          exact absurd h (by simp)
        · rw [if_neg hee] at h
          simp only [Option.some.injEq, Prod.mk.injEq] at h
          have hec : ec = none := by
            cases ec
            · rfl
            · simp at hee
          have hed : ed = none := by
            cases ed
            · rfl
            · simp at hee
          exact ⟨rest, by rw [hec, hed], h.2.2.symm⟩
      | Arrival.ev .nilEvent :: rest => rw [ha] at h; exact absurd h (by simp)
      | Arrival.ev (.other t) :: rest => rw [ha] at h; exact absurd h (by simp)
    · rw [if_pos hb] at h
      exact absurd h (by simp)

def c10Body : StreamingBody :=
  ⟨[], [Arrival.ev (.payloadChunk []), Arrival.ev (.invokeComplete none none)],
    none, false⟩

def c10CompleteBody : StreamingBody :=
  ⟨[], [Arrival.ev (.invokeComplete none none)], none, false⟩

theorem claim_c10_empty_chunk_read_witness :
    (c10Body.read 4 = some ([], none,
      (⟨[], [Arrival.ev (.invokeComplete none none)], none, false⟩ : StreamingBody))) ∧
    (c10CompleteBody.buf = [] ∧
      ∃ rest,
        c10CompleteBody.arrivals =
          Arrival.ev (.invokeComplete none none) :: rest ∧
        (⟨[], [], none, false⟩ : StreamingBody) =
          { c10CompleteBody with arrivals := rest }) :=
  ⟨claim_c10_empty_chunk_read.1 c10Body 4 [Arrival.ev (.invokeComplete none none)]
      rfl rfl rfl,
   claim_c10_empty_chunk_read.2 c10CompleteBody ⟨[], [], none, false⟩ 4 [] rfl⟩

/-! ## Claim C2: draining the body to the terminal complete event -/

/-- Reading the body repeatedly, as io.ReadAll does: collect the bytes of
successive reads until a read returns an error, and return the collected
bytes together with that error. The fuel bounds the number of reads; `none`
means the fuel ran out or a read blocked. -/
def drainBody (plen : Nat) : Nat → StreamingBody → Option (List Nat × ReadError)
  | 0, _ => none
  | fuel + 1, b =>
    match b.read plen with
    | none => none
    | some (bytes, some e, _) => some (bytes, e)
    | some (bytes, none, b') =>
      (drainBody plen fuel b').map (fun r => (bytes ++ r.1, r.2))

theorem drainBody_spec (plen : Nat) (hp : 1 ≤ plen) :
    ∀ (fuel : Nat) (buf : List Nat) (chunks : List (List Nat))
      (ec ed : Option String) (rest' : List Arrival) (cl : Bool),
      buf.length + (chunks.map List.length).sum + chunks.length + 1 ≤ fuel →
      drainBody plen fuel
          ⟨buf, chunks.map (fun c => Arrival.ev (.payloadChunk c)) ++
            Arrival.ev (.invokeComplete ec ed) :: rest', none, cl⟩ =
        some (buf ++ chunks.flatten,
          if ec.isSome || ed.isSome then
            ReadError.responseStreamError (ec.getD "") (ed.getD "")
          else ReadError.eof) := by
  intro fuel
  induction fuel with
  | zero =>
    intro buf chunks ec ed rest' cl hle
    omega
  | succ fuel ih =>
    intro buf chunks ec ed rest' cl hle
    by_cases hbuf : buf = []
    · subst hbuf
      cases chunks with
      | nil =>
        rw [drainBody, read_complete _ plen ec ed rest' rfl (by simp)]
        by_cases hee : (ec.isSome || ed.isSome) = true
        · rw [if_pos hee]
          simp [hee]
        · rw [if_neg hee]
          simp [hee]
      | cons c cs =>
        rw [drainBody,
          read_chunk _ plen c
            (cs.map (fun c => Arrival.ev (.payloadChunk c)) ++
              Arrival.ev (.invokeComplete ec ed) :: rest') rfl (by simp)]
        dsimp only
        rw [ih (c.drop (min plen c.length)) cs ec ed rest' cl
          (by
            simp only [List.length_drop, List.map_cons, List.sum_cons,
              List.length_cons] at hle ⊢
            omega)]
        simp only [Option.map_some', List.flatten_cons, List.nil_append]
        rw [← List.append_assoc, List.take_append_drop]
    · rw [drainBody, read_buffered _ plen hbuf]
      dsimp only
      have hlen : 1 ≤ buf.length := by
        cases buf
        · exact absurd rfl hbuf
        · simp
      have hn : 1 ≤ min plen buf.length := by omega
      rw [ih (buf.drop (min plen buf.length)) chunks ec ed rest' cl
        (by
          simp only [List.length_drop] at hle ⊢
          omega)]
      simp only [Option.map_some']
      rw [← List.append_assoc, List.take_append_drop]

/-- Claim C2: for a body whose event sequence ends in a terminal complete
event, all body bytes received before it are delivered to the reader first,
and the read after those bytes are exhausted returns the response stream
error carrying the event's error code and details when it carries any —
distinguishable from the end of stream — and the plain end of stream
otherwise. -/
theorem claim_c2_complete_event_error (buf : List Nat) (chunks : List (List Nat))
    (ec ed : Option String) (rest' : List Arrival) (plen fuel : Nat)
    (hp : 1 ≤ plen)
    (hfuel : buf.length + (chunks.map List.length).sum + chunks.length + 1 ≤ fuel) :
    drainBody plen fuel
        ⟨buf, chunks.map (fun c => Arrival.ev (.payloadChunk c)) ++
          Arrival.ev (.invokeComplete ec ed) :: rest', none, false⟩ =
      some (buf ++ chunks.flatten,
        if ec.isSome || ed.isSome then
          ReadError.responseStreamError (ec.getD "") (ed.getD "")
        else ReadError.eof) :=
  drainBody_spec plen hp fuel buf chunks ec ed rest' false hfuel

theorem claim_c2_complete_event_error_witness :
    drainBody 1 6
        ⟨[1], [[2, 3]].map (fun c => Arrival.ev (.payloadChunk c)) ++
          Arrival.ev (.invokeComplete (some "ERR") (some "msg")) :: [], none, false⟩ =
      some ([1] ++ [[2, 3]].flatten,
        if (some "ERR").isSome || (some "msg").isSome then
          ReadError.responseStreamError ((some "ERR").getD "") ((some "msg").getD "")
        else ReadError.eof) :=
  claim_c2_complete_event_error [1] [[2, 3]] (some "ERR") (some "msg") [] 1 6
    (by decide) (by decide)

end Lambtrip
